import Mathlib

/-!
Verification of the cooperative single-threaded async runtime in
yproducer4.py: the callback scheduler (ready deque, sleeping heap,
read/write waiting tables), the Task adapter, and the closable AsyncQueue
built on the suspend/resume protocol.

The embedding is shallow: Python deques become Lean lists (popleft = head,
append = snoc), the heapq priority queue becomes a list kept sorted by its
(deadline, sequence) key — heap push/pop order coincides with sorted order
because the keys are totally ordered and pairwise distinct (the sequence
counter is strictly increasing) — dicts become association lists, task
objects become numeric identifiers, and the QueueClosed exception becomes
an explicit Boolean/Option result.
-/

/-! ## AsyncQueue model

The AsyncQueue methods (put, get, close) mutate both the queue fields
(items, waiting, closed flag) and the global scheduler ready deque, so the
model bundles them in one record. The done field is a log, outside the
Python state, recording each task whose pending get has finished and how:
it lets theorems observe which blocked task received which item or
observed closure. -/

/-- Outcome of one iteration of the loop body of AsyncQueue.get: the task
either pops and returns the head item, raises QueueClosed, or appends
itself to waiting and suspends. -/
inductive GetOutcome where
  | item (v : Nat)
  | closedErr
  | suspended
deriving DecidableEq, Repr

/-- Combined state: the scheduler ready deque, the AsyncQueue fields
items / waiting / closed from yproducer4.py, and a log of finished gets. -/
structure QState where
  ready : List Nat
  items : List Nat
  waiting : List Nat
  closed : Bool
  done : List (Nat × GetOutcome)
deriving DecidableEq, Repr

/-- The initial state: empty queue, nothing ready, open. -/
def QState.init : QState := ⟨[], [], [], false, []⟩

/-- AsyncQueue.close from yproducer4.py: set the closed flag; if tasks are
waiting and no items are buffered, pop the oldest waiter and append it to
the scheduler ready deque. -/
def QState.close (s : QState) : QState :=
  match s.waiting, s.items with
  | t :: ws, [] =>
    { s with closed := true, ready := s.ready ++ [t], waiting := ws }
  | _, _ => { s with closed := true }

/-- AsyncQueue.put from yproducer4.py. Returns the new state and a flag
that is true exactly when QueueClosed was raised (in which case the state
is returned unmodified, since the raise precedes every mutation). On the
open path the item is appended to items and, if any task is waiting, the
oldest waiter is popped and appended to the ready deque — the item itself
is not handed to it. -/
def QState.put (s : QState) (v : Nat) : QState × Bool :=
  if s.closed then (s, true)
  else
    let s1 := { s with items := s.items ++ [v] }
    match s1.waiting with
    | t :: ws => ({ s1 with ready := s1.ready ++ [t], waiting := ws }, false)
    | [] => (s1, false)

/-- One iteration of the while loop in AsyncQueue.get, executed by task
cur: if an item is available pop and return it; otherwise if closed raise
QueueClosed; otherwise append cur to waiting and suspend (clearing
current, so Task does not self-re-enqueue). Re-running this function on
resume is exactly the re-check loop of the source. -/
def QState.getStep (s : QState) (cur : Nat) : GetOutcome × QState :=
  match s.items with
  | v :: rest => (.item v, { s with items := rest })
  | [] =>
    if s.closed then (.closedErr, s)
    else (.suspended, { s with waiting := s.waiting ++ [cur] })

/-- Run one scheduler-driven step for the queue system: pop the head of
the ready deque and resume its pending get (one loop iteration). A task
that obtains an item or observes closure finishes (its coroutine ends, so
Task catches StopIteration and drops it) and is recorded in the done log;
a task that suspends again has re-registered itself in waiting. -/
def QState.step (s : QState) : QState :=
  match s.ready with
  | [] => s
  | t :: rest =>
    let s1 := { s with ready := rest }
    match s1.getStep t with
    | (.suspended, s2) => s2
    | (o, s2) => { s2 with done := s2.done ++ [(t, o)] }

/-- Drain the ready deque, fuel-bounded: the inner while-ready loop of
Scheduler.run restricted to queue-consumer tasks. -/
def QState.run : Nat → QState → QState
  | 0, s => s
  | n + 1, s => if s.ready.isEmpty then s else QState.run n s.step

/-- Operations whose interleavings generate the reachable states of the
queue system: a producer step performing put (a raise leaves the state
unchanged), a close call, a fresh running task entering get, and the
scheduler resuming the task at the head of the ready deque. -/
inductive QOp where
  | put (v : Nat)
  | close
  | newGet (t : Nat)
  | runOne
deriving DecidableEq, Repr

/-- Apply one interleaving operation. -/
def QState.applyOp (s : QState) : QOp → QState
  | .put v => (s.put v).1
  | .close => s.close
  | .newGet t =>
    match s.getStep t with
    | (.suspended, s2) => s2
    | (o, s2) => { s2 with done := s2.done ++ [(t, o)] }
  | .runOne => s.step

/-- The state reached from the initial state by a list of operations. -/
def QState.applyOps (ops : List QOp) : QState :=
  ops.foldl QState.applyOp QState.init

/-- Invariant relating the queue fields to the ready deque: while any task
is waiting, there are at least as many woken-but-not-yet-run tasks in the
ready deque as buffered items. It is preserved by every operation and
yields the quiescent exclusion of items and waiters. -/
def QInv (s : QState) : Prop :=
  s.waiting ≠ [] → s.items.length ≤ s.ready.length

/-! ## Task adapter model

Task.__call__ from yproducer4.py sets sched.current to the task, drives
the coroutine one step with coro.send, and — unless the step raised
StopIteration — re-appends the task to the ready deque exactly when
sched.current is still set. The coroutine step is an arbitrary state
transformer (it may enqueue work, register waiters, clear current); it is
a parameter of the model, returning the new state and whether
StopIteration was raised. -/

/-- The scheduler state visible to Task.__call__: the ready deque and the
current field. -/
structure TState where
  ready : List Nat
  current : Option Nat
deriving DecidableEq, Repr

/-- Task.__call__ from yproducer4.py, for task t whose coroutine step is
send: set current := t, run the step; on StopIteration (send returns
true) fall through without re-enqueueing; otherwise re-append t to ready
exactly when current is still set after the step. -/
def Task.call (s : TState) (t : Nat) (send : TState → TState × Bool) : TState :=
  let r := send { s with current := some t }
  if r.2 then r.1
  else
    match r.1.current with
    | some _ => { r.1 with ready := r.1.ready ++ [t] }
    | none => r.1

/-! ## Scheduler model

The Scheduler of yproducer4.py: ready is a deque of work-item
identifiers, sleeping is a heapq priority queue of (deadline, sequence,
work) tuples, read_waiting / write_waiting are dicts from file descriptor
to work item. The heap is modelled as a list kept sorted by the
(deadline, sequence) key: since the sequence counter makes all keys
distinct and totally ordered, heap push/pop order is exactly sorted
order, so the model observes the same pop sequence as heapq. time.time()
is modelled by an explicit now field, advanced only by the select wait
(the environment decides by how much). -/

/-- A sleeping-heap entry: (deadline, sequence number, work item). -/
abbrev Entry := Int × Nat × Nat

/-- Heap-key comparison used on push: strictly earlier deadline, or equal
deadline and not-later sequence number (Python tuple comparison never
reaches the third component because sequence numbers are distinct). -/
def entLE (a b : Entry) : Prop :=
  a.1 < b.1 ∨ (a.1 = b.1 ∧ a.2.1 ≤ b.2.1)

instance (a b : Entry) : Decidable (entLE a b) := by
  unfold entLE; infer_instance

/-- Strict version of the heap-key order: earlier deadline, or equal
deadline and strictly earlier sequence. Pairwise entLT of a delivery
sequence states the claim order: deadlines non-decreasing and, among
equal deadlines, insertion (sequence) order. -/
def entLT (a b : Entry) : Prop :=
  a.1 < b.1 ∨ (a.1 = b.1 ∧ a.2.1 < b.2.1)

instance (a b : Entry) : Decidable (entLT a b) := by
  unfold entLT; infer_instance

/-- heapq.heappush on the sorted-list heap model: insert before the first
entry it does not follow. -/
def insertEntry (e : Entry) : List Entry → List Entry
  | [] => [e]
  | f :: rest => if entLE e f then e :: f :: rest else f :: insertEntry e rest

/-- Scheduler state from yproducer4.py (the current field lives in the
Task model above; it plays no role in the run loop itself). -/
structure Scheduler where
  ready : List Nat
  sleeping : List Entry
  sequence : Nat
  read_waiting : List (Nat × Nat)
  write_waiting : List (Nat × Nat)
  now : Int
deriving DecidableEq, Repr

/-- A fresh scheduler at time now0. -/
def Scheduler.mkInit (now0 : Int) : Scheduler := ⟨[], [], 0, [], [], now0⟩

/-- Scheduler.call_soon: append the work item to the ready deque. -/
def Scheduler.call_soon (s : Scheduler) (w : Nat) : Scheduler :=
  { s with ready := s.ready ++ [w] }

/-- Scheduler.call_later from yproducer4.py: increment the sequence
counter, compute deadline = now + delay, and push (deadline, sequence,
work) onto the sleeping heap. -/
def Scheduler.call_later (s : Scheduler) (delay : Int) (w : Nat) : Scheduler :=
  let seq := s.sequence + 1
  let deadline := s.now + delay
  { s with sequence := seq,
           sleeping := insertEntry (deadline, seq, w) s.sleeping }

/-- Dict assignment table[fd] = w: replace an existing binding, else
append. -/
def aset (fd w : Nat) : List (Nat × Nat) → List (Nat × Nat)
  | [] => [(fd, w)]
  | p :: rest => if p.1 = fd then (fd, w) :: rest else p :: aset fd w rest

/-- Scheduler.read_wait: register w as the sole reader waiting on fd. -/
def Scheduler.read_wait (s : Scheduler) (fd w : Nat) : Scheduler :=
  { s with read_waiting := aset fd w s.read_waiting }

/-- Scheduler.write_wait: register w as the sole writer waiting on fd. -/
def Scheduler.write_wait (s : Scheduler) (fd w : Nat) : Scheduler :=
  { s with write_waiting := aset fd w s.write_waiting }

/-- Dict pop table.pop(fd): the bound work item, if any, and the table
without that binding. -/
def apop (fd : Nat) : List (Nat × Nat) → Option Nat × List (Nat × Nat)
  | [] => (none, [])
  | p :: rest =>
    if p.1 = fd then (some p.2, rest)
    else
      let r := apop fd rest
      (r.1, p :: r.2)

/-- For each descriptor reported ready by select, pop its waiter from the
table and append it to the ready deque (select only reports registered
descriptors; an unregistered one is skipped). -/
def wakeFds : List Nat → List (Nat × Nat) → List Nat → List (Nat × Nat) × List Nat
  | [], table, ready => (table, ready)
  | fd :: rest, table, ready =>
    match apop fd table with
    | (some w, table2) => wakeFds rest table2 (ready ++ [w])
    | (none, table2) => wakeFds rest table2 ready

/-- The post-select loop of Scheduler.run: while the sleeping heap is
non-empty and now is strictly past the top deadline, pop the top entry
and append its work item to the ready deque. Returns the remaining heap
and the delivered work items in delivery order. -/
def popExpiredAux (now : Int) : List Entry → List Entry × List Nat
  | [] => ([], [])
  | e :: rest =>
    if now > e.1 then
      let r := popExpiredAux now rest
      (r.1, e.2.2 :: r.2)
    else (e :: rest, [])

/-- Apply the expired-entry loop to the scheduler state. -/
def Scheduler.popExpired (now2 : Int) (s : Scheduler) : Scheduler :=
  let r := popExpiredAux now2 s.sleeping
  { s with sleeping := r.1, ready := s.ready ++ r.2 }

/-- The environment of the run loop: the effect of invoking a work item
(func(), which may mutate every scheduler field), the descriptors that
select reports readable / writable given the computed timeout, and the
time at which the select call returns. These are external collaborators
of the scheduler (arbitrary task code, the OS), so they are parameters of
the model. -/
structure Env where
  exec : Nat → Scheduler → Scheduler
  selRead : Scheduler → Option Int → List Nat
  selWrite : Scheduler → Option Int → List Nat
  elapse : Scheduler → Option Int → Int

/-- The blocking phase of one run iteration, taken when ready is empty:
compute the timeout from the earliest deadline (None if no sleeper, else
max(deadline - now, 0)), perform the select wait, move every reported
descriptor's waiter to ready, then deliver every expired sleeping entry. -/
def Scheduler.waitPhase (env : Env) (s : Scheduler) : Scheduler :=
  let timeout : Option Int :=
    match s.sleeping with
    | (deadline, _, _) :: _ => some (max (deadline - s.now) 0)
    | [] => none
  let canRead := env.selRead s timeout
  let canWrite := env.selWrite s timeout
  let rw := wakeFds canRead s.read_waiting s.ready
  let ww := wakeFds canWrite s.write_waiting rw.2
  let now2 := env.elapse s timeout
  Scheduler.popExpired now2
    { s with read_waiting := rw.1, write_waiting := ww.1,
             ready := ww.2, now := now2 }

/-- The inner while-ready loop of Scheduler.run: pop and invoke work
items until ready is empty. Work invoked during the drain may enqueue
more ready work, which is drained in the same pass, so the loop is
fuel-bounded; none reports fuel exhaustion. -/
def Scheduler.drainReady (env : Env) : Nat → Scheduler → Option Scheduler
  | 0, s => if s.ready.isEmpty then some s else none
  | n + 1, s =>
    match s.ready with
    | [] => some s
    | w :: rest => Scheduler.drainReady env n (env.exec w { s with ready := rest })

/-- The while condition of Scheduler.run: true while any of the four
structures — ready deque, sleeping heap, read table, write table — is
non-empty. -/
def Scheduler.loopGuard (s : Scheduler) : Bool :=
  !(s.ready.isEmpty && s.sleeping.isEmpty
    && s.read_waiting.isEmpty && s.write_waiting.isEmpty)

/-- Scheduler.run from yproducer4.py, fuel-bounded: while the guard
holds, perform the blocking phase if ready is empty, then drain the ready
deque; return the final state when the guard fails, none on fuel
exhaustion. -/
def Scheduler.run (env : Env) : Nat → Scheduler → Option Scheduler
  | 0, s => if s.loopGuard then none else some s
  | n + 1, s =>
    if s.loopGuard then
      let s1 := if s.ready.isEmpty then s.waitPhase env else s
      match Scheduler.drainReady env (n + 1) s1 with
      | some s2 => Scheduler.run env n s2
      | none => none
    else some s

/-- The (deadline, sequence, work) entries that a block of call_later
calls starting from time now0 and sequence counter seq0 creates, in call
order: the i-th call (0-based) gets deadline now0 + d_i and sequence
seq0 + i + 1. -/
def entriesFrom (now0 : Int) (seq0 : Nat) : List (Int × Nat) → List Entry
  | [] => []
  | (d, w) :: rest => (now0 + d, seq0 + 1, w) :: entriesFrom now0 (seq0 + 1) rest

/-- The scheduler after performing the given (delay, work) call_later
calls on a fresh scheduler at time now0. -/
def afterCalls (now0 : Int) (calls : List (Int × Nat)) : Scheduler :=
  calls.foldl (fun s dw => s.call_later dw.1 dw.2) (Scheduler.mkInit now0)

/-- A coroutine step that raises StopIteration at once. -/
def sendStop : TState → TState × Bool := fun s => (s, true)

/-- A coroutine step that suspends through a suspension-point helper,
which clears the current field. -/
def sendClear : TState → TState × Bool := fun s => ({ s with current := none }, false)

/-- A coroutine step that suspends without going through a helper, so the
current field stays set. -/
def sendKeep : TState → TState × Bool := fun s => (s, false)

/-- An environment in which no work exists: invoking work is the
identity, select reports nothing, time stands still. -/
def envIdle : Env :=
  { exec := fun _ s => s
    selRead := fun _ _ => []
    selWrite := fun _ _ => []
    elapse := fun s _ => s.now }

/-! ## Theorems -/

/-- Claim C1: on a queue with put 1, put 2, close (both puts succeeding),
three get steps return item 1, item 2, and then raise QueueClosed; in
general a get step raises QueueClosed exactly when the queue is empty and
closed, and after closure a get step never suspends (so it cannot block
indefinitely), and it always returns an actual item or raises (never a
null value). -/
theorem c1_queue_fifo_and_closure :
    (QState.init.put 1).2 = false ∧
    ((QState.init.put 1).1.put 2).2 = false ∧
    ((((QState.init.put 1).1.put 2).1.close).getStep 0).1 = .item 1 ∧
    (((((QState.init.put 1).1.put 2).1.close).getStep 0).2.getStep 0).1 = .item 2 ∧
    ((((((QState.init.put 1).1.put 2).1.close).getStep 0).2.getStep 0).2.getStep 0).1
      = .closedErr ∧
    (∀ (s : QState) (t : Nat),
      ((s.getStep t).1 = .closedErr ↔ (s.items = [] ∧ s.closed = true)) ∧
      (s.closed = true → (s.getStep t).1 ≠ .suspended)) := by
  refine ⟨rfl, rfl, rfl, rfl, rfl, ?_⟩
  intro s t
  obtain ⟨r, i, w, c, d⟩ := s
  rcases i with _ | ⟨v, vs⟩ <;> cases c <;>
    simp [QState.getStep]

/-- Witness for C1: a get step on the closed queue that still buffers the
item 2 does not suspend. -/
theorem c1_queue_fifo_and_closure_witness :
    (((((QState.init.put 1).1.put 2).1.close).getStep 0).2.getStep 3).1 ≠ .suspended :=
  (c1_queue_fifo_and_closure.2.2.2.2.2
    ((((QState.init.put 1).1.put 2).1.close).getStep 0).2 3).2 rfl

/-- Claim C5: put on a closed queue raises QueueClosed (and only then);
on an open queue it appends the item at the tail of the item sequence
and, when at least one task is waiting, moves exactly the oldest waiter
to the tail of the scheduler ready deque, leaving the remaining waiters;
the woken task is not handed the item (nothing is recorded as received,
and the item sits in the buffer); with no waiter the ready deque is
untouched. -/
theorem c5_put_semantics :
    ∀ (s : QState) (v : Nat),
      ((s.put v).2 = true ↔ s.closed = true) ∧
      (s.closed = false → (s.put v).1.items = s.items ++ [v]) ∧
      (s.closed = false → ∀ t ws, s.waiting = t :: ws →
        (s.put v).1.ready = s.ready ++ [t] ∧ (s.put v).1.waiting = ws ∧
        (s.put v).1.done = s.done) ∧
      (s.closed = false → s.waiting = [] →
        (s.put v).1.ready = s.ready ∧ (s.put v).1.waiting = []) := by
  intro s v
  obtain ⟨r, i, w, c, d⟩ := s
  cases c with
  | true => simp [QState.put]
  | false =>
    rcases w with _ | ⟨t0, ws0⟩
    · refine ⟨by simp [QState.put], by simp [QState.put], ?_, ?_⟩
      · intro _ t ws hw
        simp at hw
      · intro _ _
        simp [QState.put]
    · refine ⟨by simp [QState.put], by simp [QState.put], ?_, ?_⟩
      · intro _ t ws hw
        simp only [QState.waiting] at hw
        cases hw
        simp [QState.put]
      · intro _ hw
        simp at hw

/-- Witness for C5: put 3 on an open queue with waiters 7 and 8 wakes
exactly waiter 7. -/
theorem c5_put_semantics_witness :
    ((⟨[], [], [7, 8], false, []⟩ : QState).put 3).1.ready = [] ++ [7] ∧
    ((⟨[], [], [7, 8], false, []⟩ : QState).put 3).1.waiting = [8] ∧
    ((⟨[], [], [7, 8], false, []⟩ : QState).put 3).1.done = [] :=
  (c5_put_semantics ⟨[], [], [7, 8], false, []⟩ 3).2.2.1 rfl 7 [8] rfl

/-- Claim C10: put on a closed queue fails atomically: QueueClosed is
raised and the whole state — items, waiters, ready deque — is exactly the
input state. -/
theorem c10_put_closed_atomic :
    ∀ (s : QState) (v : Nat), s.closed = true →
      (s.put v).1 = s ∧ (s.put v).2 = true := by
  intro s v h
  simp [QState.put, h]

/-- Witness for C10: a put on a concrete closed queue raises and changes
nothing. -/
theorem c10_put_closed_atomic_witness :
    ((⟨[4], [1], [2], true, []⟩ : QState).put 9).1 = ⟨[4], [1], [2], true, []⟩ ∧
    ((⟨[4], [1], [2], true, []⟩ : QState).put 9).2 = true :=
  c10_put_closed_atomic ⟨[4], [1], [2], true, []⟩ 9 rfl

/-- Claim C6: with exactly two tasks blocked in get on an empty open
queue, a single put x wakes the oldest, which receives x when the
scheduler runs; the other stays blocked in the waiter list with no
recorded outcome, so the item is never delivered twice; moreover a
resumed get that finds no item in an open queue re-registers the caller
at the tail of the waiter list and suspends again (the re-check loop). -/
theorem c6_two_waiters_one_put :
    ∀ (x t1 t2 : Nat),
      QState.run 2 ((QState.mk [] [] [t1, t2] false []).put x).1 =
        ⟨[], [], [t2], false, [(t1, .item x)]⟩ ∧
      (∀ (s : QState) (t : Nat), s.items = [] → s.closed = false →
        s.getStep t = (.suspended, { s with waiting := s.waiting ++ [t] })) := by
  intro x t1 t2
  refine ⟨rfl, ?_⟩
  intro s t hi hc
  obtain ⟨r, i, w, c, d⟩ := s
  cases hi
  cases hc
  rfl

/-- Witness for C6: a resumed get on a concrete empty open queue
re-registers task 3. -/
theorem c6_two_waiters_one_put_witness :
    (⟨[9], [], [], false, []⟩ : QState).getStep 3 =
      (.suspended, { (⟨[9], [], [], false, []⟩ : QState) with waiting := [] ++ [3] }) :=
  (c6_two_waiters_one_put 0 0 0).2 ⟨[9], [], [], false, []⟩ 3 rfl rfl

/-- Counterexample to claim C2: with two tasks blocked in get on an
empty open queue, close wakes only the oldest; running the scheduler to
quiescence leaves the ready deque empty, only task 0 recorded as failing
with QueueClosed, and task 1 still in the waiter list — so not every
blocked task is woken and the waiter list is non-empty at quiescence. -/
theorem c2_close_counterexample :
    (QState.run 9 (QState.mk [] [] [0, 1] false []).close).ready = [] ∧
    (QState.run 9 (QState.mk [] [] [0, 1] false []).close).done = [(0, .closedErr)] ∧
    (QState.run 9 (QState.mk [] [] [0, 1] false []).close).waiting ≠ [] := by
  decide

/-- Claim C2 (amended): close on an empty open queue with n ≥ 1 blocked
tasks wakes exactly the oldest blocked task, which fails with QueueClosed
when the scheduler runs; the remaining n - 1 tasks are never woken and
stay in the waiter list, the resulting state being quiescent (a further
scheduler step changes nothing). Only for n = 1 is the waiter list empty
at quiescence. -/
theorem c2_close_wakes_only_oldest :
    ∀ (t : Nat) (ts : List Nat),
      QState.run 2 (QState.mk [] [] (t :: ts) false []).close =
        ⟨[], [], ts, true, [(t, .closedErr)]⟩ ∧
      QState.step ⟨[], [], ts, true, [(t, .closedErr)]⟩ =
        ⟨[], [], ts, true, [(t, .closedErr)]⟩ := by
  intro t ts
  exact ⟨rfl, rfl⟩

/-- Counterexample to claim C8: on a queue with two waiters and no items,
a second close wakes a second waiter, so close twice differs from close
once. -/
theorem c8_close_counterexample :
    (QState.mk [] [] [10, 20] false []).close.close ≠
      (QState.mk [] [] [10, 20] false []).close := by
  decide

/-- Claim C8 (amended): close twice equals close once exactly when, after
the first close, no waiter remains or an item is buffered; otherwise (at
least one waiter left and no items) the second close moves one more
waiter to the ready deque. In particular close is idempotent on the
closed flag, the items, and any queue without waiters. -/
theorem c8_close_idempotent_iff :
    ∀ s : QState,
      s.close.close = s.close ↔ (s.close.waiting = [] ∨ s.close.items ≠ []) := by
  intro s
  obtain ⟨r, i, w, c, d⟩ := s
  rcases w with _ | ⟨t, ws⟩ <;> rcases i with _ | ⟨v, vs⟩
  · simp [QState.close]
  · simp [QState.close]
  · rcases ws with _ | ⟨u, us⟩
    · simp [QState.close]
    · simp only [QState.close]
      constructor
      · intro h
        have := congrArg QState.ready h
        simp at this
      · intro h
        rcases h with h | h
        · exact absurd h (by simp)
        · exact absurd rfl h
  · simp [QState.close]

/-- Witness for C8: close twice on a concrete single-waiter queue equals
close once, since the single close empties the waiter list. -/
theorem c8_close_idempotent_iff_witness :
    (QState.mk [] [] [5] false []).close.close = (QState.mk [] [] [5] false []).close :=
  (c8_close_idempotent_iff ⟨[], [], [5], false, []⟩).mpr (Or.inl rfl)

theorem qinv_applyOp : ∀ (s : QState) (op : QOp), QInv s → QInv (s.applyOp op) := by
  intro s op h
  obtain ⟨r, i, w, c, d⟩ := s
  simp only [QInv] at h
  cases op with
  | put v =>
    cases c with
    | true => simpa [QState.applyOp, QState.put, QInv] using h
    | false =>
      rcases w with _ | ⟨t, ws⟩
      · intro hw
        simp [QState.applyOp, QState.put] at hw
      · intro hw
        have hlen := h (by simp)
        simp only [QState.applyOp, QState.put] at hw ⊢
        simp at hlen ⊢
        omega
  | close =>
    rcases w with _ | ⟨t, ws⟩ <;> rcases i with _ | ⟨v, vs⟩ <;>
      intro hw <;> simp [QState.applyOp, QState.close] at hw ⊢
    · have hlen := h (by simp)
      simp at hlen
      omega
  | newGet t =>
    rcases i with _ | ⟨v, vs⟩
    · cases c with
      | true => intro hw; simp [QState.applyOp, QState.getStep] at hw ⊢
      | false => intro hw; simp [QState.applyOp, QState.getStep] at hw ⊢
    · intro hw
      simp only [QState.applyOp, QState.getStep] at hw ⊢
      have hlen := h (by simpa using hw)
      simp at hlen ⊢
      omega
  | runOne =>
    rcases r with _ | ⟨t, rest⟩
    · simpa [QState.applyOp, QState.step, QInv] using h
    · rcases i with _ | ⟨v, vs⟩
      · cases c with
        | true => intro hw; simp [QState.applyOp, QState.step, QState.getStep] at hw ⊢
        | false => intro hw; simp [QState.applyOp, QState.step, QState.getStep] at hw ⊢
      · intro hw
        simp only [QState.applyOp, QState.step, QState.getStep] at hw ⊢
        have hlen := h (by simpa using hw)
        simp at hlen ⊢
        omega

theorem qinv_foldl : ∀ (ops : List QOp) (s : QState), QInv s → QInv (ops.foldl QState.applyOp s) := by
  intro ops
  induction ops with
  | nil => intro s h; exact h
  | cons op rest ih =>
    intro s h
    exact ih (s.applyOp op) (qinv_applyOp s op h)

theorem qinv_reachable : ∀ ops : List QOp, QInv (QState.applyOps ops) := by
  intro ops
  exact qinv_foldl ops QState.init (by intro hw; exact absurd rfl hw)

/-- Claim C9 (amended): the exclusion of buffered items and waiting tasks
does not hold between arbitrary scheduler-driven steps — a put that wakes
one of several waiters leaves both non-empty until the woken task runs —
but it holds at quiescence: in every state reachable by put, get, close
and scheduler steps whose ready deque is empty, the item sequence and the
waiter sequence are not both non-empty. Furthermore a single get step
either consumes an item (leaving the waiter list untouched) or registers
the caller as a waiter (leaving the items untouched), never both. -/
theorem c9_quiescent_exclusion :
    (∀ ops : List QOp,
      (QState.applyOps ops).ready = [] →
        (QState.applyOps ops).items = [] ∨ (QState.applyOps ops).waiting = []) ∧
    (∀ (s s2 : QState) (t v : Nat),
        s.getStep t = (.item v, s2) → s2.waiting = s.waiting ∧ s2.items = s.items.tail) ∧
    (∀ (s s2 : QState) (t : Nat),
        s.getStep t = (.suspended, s2) → s2.items = s.items ∧
          s2.waiting = s.waiting ++ [t]) := by
  refine ⟨?_, ?_, ?_⟩
  · intro ops hr
    by_cases hw : (QState.applyOps ops).waiting = []
    · exact Or.inr hw
    · left
      have hlen := qinv_reachable ops hw
      rw [hr] at hlen
      simpa using hlen
  · intro s s2 t v heq
    obtain ⟨r, i, w, c, d⟩ := s
    rcases i with _ | ⟨v0, vs⟩
    · cases c <;> simp [QState.getStep] at heq
    · simp [QState.getStep] at heq
      obtain ⟨h1, h2⟩ := heq
      subst h2
      simp
  · intro s s2 t heq
    obtain ⟨r, i, w, c, d⟩ := s
    rcases i with _ | ⟨v0, vs⟩
    · cases c with
      | true => simp [QState.getStep] at heq
      | false =>
        simp [QState.getStep] at heq
        subst heq
        simp
    · simp [QState.getStep] at heq

/-- Counterexample to claim C9 as stated: after two gets suspend and one
put wakes the first waiter, and before the scheduler runs the woken task,
the item sequence and the waiter sequence are simultaneously non-empty. -/
theorem c9_counterexample :
    (QState.applyOps [.newGet 0, .newGet 1, .put 5]).items ≠ [] ∧
    (QState.applyOps [.newGet 0, .newGet 1, .put 5]).waiting ≠ [] := by
  decide

/-- Witness for C9: the empty operation list reaches a quiescent state,
whose items or waiters are empty. -/
theorem c9_quiescent_exclusion_witness :
    (QState.applyOps []).items = [] ∨ (QState.applyOps []).waiting = [] :=
  c9_quiescent_exclusion.1 [] rfl

/-- Claim C7: one invocation of a Task by the scheduler, for an arbitrary
coroutine step: if the step raised StopIteration the Task adds nothing to
the ready deque (the completed task is dropped); if the step suspended
and a suspension-point helper cleared the current field, the Task does
not re-enqueue itself; if the step suspended and current is still set,
the Task re-enqueues exactly itself at the tail of the ready deque. -/
theorem c7_task_call_reenqueue :
    ∀ (s : TState) (t : Nat) (send : TState → TState × Bool),
      ((send { s with current := some t }).2 = true →
        Task.call s t send = (send { s with current := some t }).1) ∧
      ((send { s with current := some t }).2 = false →
        (send { s with current := some t }).1.current = none →
        Task.call s t send = (send { s with current := some t }).1) ∧
      (∀ u, (send { s with current := some t }).2 = false →
        (send { s with current := some t }).1.current = some u →
        Task.call s t send =
          { (send { s with current := some t }).1 with
              ready := (send { s with current := some t }).1.ready ++ [t] }) := by
  intro s t send
  refine ⟨?_, ?_, ?_⟩
  · intro h
    simp [Task.call, h]
  · intro h1 h2
    simp [Task.call, h1, h2]
  · intro u h1 h2
    simp [Task.call, h1, h2]

/-- Witness for C7: a step that completes at once leaves the ready deque
alone, a helper-cleared suspension does not re-enqueue, and a suspension
that keeps current set re-enqueues the task. -/
theorem c7_task_call_reenqueue_witness :
    Task.call ⟨[], none⟩ 4 sendStop = (sendStop { (⟨[], none⟩ : TState) with current := some 4 }).1 ∧
    Task.call ⟨[], none⟩ 4 sendClear = (sendClear { (⟨[], none⟩ : TState) with current := some 4 }).1 ∧
    Task.call ⟨[], none⟩ 4 sendKeep =
      { (sendKeep { (⟨[], none⟩ : TState) with current := some 4 }).1 with
          ready := (sendKeep { (⟨[], none⟩ : TState) with current := some 4 }).1.ready ++ [4] } :=
  ⟨(c7_task_call_reenqueue ⟨[], none⟩ 4 sendStop).1 rfl,
   (c7_task_call_reenqueue ⟨[], none⟩ 4 sendClear).2.1 rfl rfl,
   (c7_task_call_reenqueue ⟨[], none⟩ 4 sendKeep).2.2 4 rfl rfl⟩

theorem loopGuard_false_iff (s : Scheduler) :
    s.loopGuard = false ↔
      (s.ready = [] ∧ s.sleeping = [] ∧ s.read_waiting = [] ∧ s.write_waiting = []) := by
  simp [Scheduler.loopGuard, List.isEmpty_iff, and_assoc]

theorem run_some_guard_false (env : Env) :
    ∀ (n : Nat) (s s2 : Scheduler),
      Scheduler.run env n s = some s2 → s2.loopGuard = false := by
  intro n
  induction n with
  | zero =>
    intro s s2 h
    cases hg : s.loopGuard with
    | true => simp [Scheduler.run, hg] at h
    | false =>
      simp [Scheduler.run, hg] at h
      exact h ▸ hg
  | succ n ih =>
    intro s s2 h
    cases hg : s.loopGuard with
    | true =>
      simp only [Scheduler.run, hg, if_true] at h
      cases hd : Scheduler.drainReady env (n + 1)
          (if s.ready.isEmpty then s.waitPhase env else s) with
      | none => rw [hd] at h; simp at h
      | some s3 =>
        rw [hd] at h
        exact ih s3 s2 h
    | false =>
      simp [Scheduler.run, hg] at h
      exact h ▸ hg

/-- Claim C4: the run loop returns exactly when the ready deque, the
sleeping (deadline) heap, and both readiness tables are empty: whatever
the environment (task effects, select results, clock) and fuel, any state
in which run returns has all four structures empty, and from a state with
all four empty run returns at once. While any structure is non-empty run
keeps iterating (or exhausts its fuel); it never returns early. -/
theorem c4_run_termination_condition :
    ∀ (env : Env) (n : Nat) (s : Scheduler),
      (∀ s2, Scheduler.run env n s = some s2 →
        s2.ready = [] ∧ s2.sleeping = [] ∧
        s2.read_waiting = [] ∧ s2.write_waiting = []) ∧
      (s.ready = [] → s.sleeping = [] → s.read_waiting = [] → s.write_waiting = [] →
        Scheduler.run env n s = some s) := by
  intro env n s
  constructor
  · intro s2 h
    exact (loopGuard_false_iff s2).mp (run_some_guard_false env n s s2 h)
  · intro h1 h2 h3 h4
    have hg : s.loopGuard = false := (loopGuard_false_iff s).mpr ⟨h1, h2, h3, h4⟩
    cases n with
    | zero => simp [Scheduler.run, hg]
    | succ n => simp [Scheduler.run, hg]

/-- Witness for C4: on the fresh empty scheduler in the idle environment,
run returns the state itself, and that state has all four structures
empty. -/
theorem c4_run_termination_condition_witness :
    Scheduler.run envIdle 3 (Scheduler.mkInit 0) = some (Scheduler.mkInit 0) ∧
    ((Scheduler.mkInit 0).ready = [] ∧ (Scheduler.mkInit 0).sleeping = [] ∧
     (Scheduler.mkInit 0).read_waiting = [] ∧ (Scheduler.mkInit 0).write_waiting = []) := by
  have h := (c4_run_termination_condition envIdle 3 (Scheduler.mkInit 0)).2 rfl rfl rfl rfl
  exact ⟨h, (c4_run_termination_condition envIdle 3 (Scheduler.mkInit 0)).1 _ h⟩

theorem entLT_trans : ∀ {a b c : Entry}, entLT a b → entLT b c → entLT a c := by
  intro a b c h1 h2
  rcases h1 with h1 | ⟨e1, s1⟩ <;> rcases h2 with h2 | ⟨e2, s2⟩
  · exact Or.inl (lt_trans h1 h2)
  · exact Or.inl (e2 ▸ h1)
  · exact Or.inl (e1 ▸ h2)
  · exact Or.inr ⟨e1.trans e2, lt_trans s1 s2⟩

theorem insertEntry_perm :
    ∀ (e : Entry) (l : List Entry), (insertEntry e l).Perm (e :: l) := by
  intro e l
  induction l with
  | nil => exact List.Perm.refl _
  | cons f rest ih =>
    simp only [insertEntry]
    by_cases h : entLE e f
    · rw [if_pos h]
    · rw [if_neg h]
      exact (List.Perm.cons f ih).trans (List.Perm.swap e f rest)

theorem mem_insertEntry :
    ∀ {g e : Entry} {l : List Entry}, g ∈ insertEntry e l ↔ (g = e ∨ g ∈ l) := by
  intro g e l
  rw [(insertEntry_perm e l).mem_iff]
  exact List.mem_cons

theorem insertEntry_pairwise :
    ∀ (e : Entry) (l : List Entry), l.Pairwise entLT →
      (∀ f ∈ l, f.2.1 < e.2.1) → (insertEntry e l).Pairwise entLT := by
  intro e l
  induction l with
  | nil =>
    intro _ _
    simp [insertEntry]
  | cons f rest ih =>
    intro hp hseq
    rw [List.pairwise_cons] at hp
    obtain ⟨hf, hrest⟩ := hp
    simp only [insertEntry]
    by_cases h : entLE e f
    · rw [if_pos h]
      have hef : entLT e f := by
        rcases h with h | ⟨heq, hle⟩
        · exact Or.inl h
        · have := hseq f (List.mem_cons_self f rest)
          omega
      refine List.Pairwise.cons ?_ (List.Pairwise.cons hf hrest)
      intro g hg
      rcases List.mem_cons.mp hg with rfl | hg2
      · exact hef
      · exact entLT_trans hef (hf g hg2)
    · rw [if_neg h]
      have hfe : entLT f e := by
        unfold entLE at h
        push_neg at h
        obtain ⟨h1, _⟩ := h
        rcases lt_or_eq_of_le h1 with hlt | heq
        · exact Or.inl hlt
        · exact Or.inr ⟨heq, hseq f (List.mem_cons_self f rest)⟩
      refine List.Pairwise.cons ?_ (ih hrest (fun g hg => hseq g (List.mem_cons_of_mem f hg)))
      intro g hg
      rcases mem_insertEntry.mp hg with rfl | hg2
      · exact hfe
      · exact hf g hg2

theorem call_later_foldl_ready :
    ∀ (calls : List (Int × Nat)) (s : Scheduler),
      (calls.foldl (fun a dw => a.call_later dw.1 dw.2) s).ready = s.ready := by
  intro calls
  induction calls with
  | nil => intro s; rfl
  | cons dw rest ih =>
    intro s
    simp only [List.foldl_cons]
    rw [ih]
    rfl

theorem call_later_foldl_spec :
    ∀ (calls : List (Int × Nat)) (s : Scheduler),
      s.sleeping.Pairwise entLT →
      (∀ f ∈ s.sleeping, f.2.1 ≤ s.sequence) →
      (calls.foldl (fun a dw => a.call_later dw.1 dw.2) s).sleeping.Pairwise entLT ∧
      ((calls.foldl (fun a dw => a.call_later dw.1 dw.2) s).sleeping).Perm
        (s.sleeping ++ entriesFrom s.now s.sequence calls) ∧
      (∀ f ∈ (calls.foldl (fun a dw => a.call_later dw.1 dw.2) s).sleeping,
        f.2.1 ≤ (calls.foldl (fun a dw => a.call_later dw.1 dw.2) s).sequence) := by
  intro calls
  induction calls with
  | nil =>
    intro s hp hs
    exact ⟨hp, by simp [entriesFrom], hs⟩
  | cons dw rest ih =>
    intro s hp hs
    obtain ⟨d, w⟩ := dw
    simp only [List.foldl_cons]
    have h1p : (s.call_later d w).sleeping.Pairwise entLT :=
      insertEntry_pairwise _ _ hp (fun f hf => Nat.lt_succ_of_le (hs f hf))
    have h1s : ∀ f ∈ (s.call_later d w).sleeping, f.2.1 ≤ (s.call_later d w).sequence := by
      intro f hf
      rcases mem_insertEntry.mp hf with rfl | hf2
      · exact le_refl _
      · exact Nat.le_succ_of_le (hs f hf2)
    obtain ⟨hp2, hperm2, hs2⟩ := ih (s.call_later d w) h1p h1s
    refine ⟨hp2, ?_, hs2⟩
    refine hperm2.trans ?_
    show ((insertEntry (s.now + d, s.sequence + 1, w) s.sleeping ++
        entriesFrom s.now (s.sequence + 1) rest)).Perm
      (s.sleeping ++ entriesFrom s.now s.sequence ((d, w) :: rest))
    have hstep : (insertEntry (s.now + d, s.sequence + 1, w) s.sleeping ++
        entriesFrom s.now (s.sequence + 1) rest).Perm
        (((s.now + d, s.sequence + 1, w) :: s.sleeping) ++
          entriesFrom s.now (s.sequence + 1) rest) :=
      (insertEntry_perm _ s.sleeping).append_right _
    refine hstep.trans ?_
    exact List.perm_middle.symm

theorem popExpiredAux_eq :
    ∀ (T : Int) (l : List Entry),
      popExpiredAux T l =
        (l.dropWhile (fun e => decide (T > e.1)),
         (l.takeWhile (fun e => decide (T > e.1))).map (fun e => e.2.2)) := by
  intro T l
  induction l with
  | nil => rfl
  | cons e rest ih =>
    by_cases h : T > e.1
    · simp [popExpiredAux, List.takeWhile_cons, List.dropWhile_cons, h, ih]
    · simp [popExpiredAux, List.takeWhile_cons, List.dropWhile_cons, h]

/-- Claim C3: after any finite block of call_later calls on a fresh
scheduler at time now0, the sleeping heap holds exactly one entry per
call, with deadline now0 + d_i and sequence number i + 1 (the insertion
index); the heap is strictly ordered by (deadline, sequence), so its pop
order — deadlines non-decreasing, ties in insertion order — is the order
in which the run loop delivers the work items to the ready deque: one
expired-entry sweep at time T appends exactly the expired prefix, in that
order, and that prefix is itself so ordered. -/
theorem c3_call_later_delivery_order :
    ∀ (now0 : Int) (calls : List (Int × Nat)) (T : Int),
      (afterCalls now0 calls).sleeping.Perm (entriesFrom now0 0 calls) ∧
      (afterCalls now0 calls).sleeping.Pairwise entLT ∧
      ((afterCalls now0 calls).popExpired T).ready =
        ((afterCalls now0 calls).sleeping.takeWhile (fun e => decide (T > e.1))).map
          (fun e => e.2.2) ∧
      ((afterCalls now0 calls).sleeping.takeWhile
        (fun e => decide (T > e.1))).Pairwise entLT := by
  intro now0 calls T
  obtain ⟨hp, hperm, _⟩ :=
    call_later_foldl_spec calls (Scheduler.mkInit now0) List.Pairwise.nil
      (by intro f hf; cases hf)
  have hready : (afterCalls now0 calls).ready = [] :=
    call_later_foldl_ready calls (Scheduler.mkInit now0)
  refine ⟨by simpa using hperm, hp, ?_, hp.sublist (List.takeWhile_sublist _)⟩
  simp [Scheduler.popExpired, popExpiredAux_eq, hready]
